import Mathlib

/-!
Shallow embedding of the Name-Spinner backend core
(`src/controllers/history.ts`, `AnalyticsService` in the services file):
participant-pool eligibility filtering, the three selection strategies,
the transactional write path of `selectParticipant` /
`createSelectionRecord` / `clearSelectionHistory`, and the fairness /
engagement analytics aggregations.

Timestamps (`Date.getTime()` values, in milliseconds) are modelled as `Int`;
each `new Date()` call in a handler is a separate clock reading passed in
explicitly.  `Math.random()` results are passed in as a rational `r` with
`0 ≤ r < 1`.  MongoDB transaction semantics are modelled by a failure
oracle `failAt`: if any of the three writes fails, the whole operation
returns the original state together with an error.
-/

namespace NameSpinner

/-- One entry of a meeting's embedded `participants` roster
(`MeetingSchema.participants`). -/
structure RosterEntry where
  name : String
  email : Option String
  deriving DecidableEq

/-- `meeting.statistics` (the fields touched by the core). -/
structure MeetingStats where
  totalSpins : Nat
  lastActivity : Option Int
  deriving DecidableEq

/-- A `Meeting` document (the fields used by the core). -/
structure Meeting where
  mid : Nat
  name : String
  department : String
  participants : List RosterEntry
  statistics : MeetingStats
  deriving DecidableEq

/-- A `Participant` document (the fields used by the core).
`meetingId` is the optional enterprise field that
`clearSelectionHistory`'s participant filter matches on. -/
structure Participant where
  pid : Nat
  name : String
  email : Option String
  department : String
  meetingId : Option Nat
  isActive : Bool
  lastSelected : Option Int
  selectionCount : Nat
  deriving DecidableEq

/-- A `SelectionRecord` document (the fields used by the core). -/
structure SelectionRecord where
  rid : Nat
  meetingId : Nat
  participantId : Nat
  participantName : String
  department : String
  selectionMethod : String
  selectionDuration : Option Int
  sessionId : Nat
  selectedAt : Int
  deriving DecidableEq

/-- A row of the legacy `SelectionHistory` collection
(`clearSelectionHistory` also deletes from it). -/
structure LegacyHistoryRecord where
  department : String
  meetingId : Nat
  deriving DecidableEq

/-- The persistent state the handlers read and write. -/
structure DB where
  meetings : List Meeting
  participants : List Participant
  records : List SelectionRecord
  legacy : List LegacyHistoryRecord
  deriving DecidableEq

/-! ### EligibilityFilter (`selectParticipant`, history.ts lines 212-225) -/

/-- Sort key used by the recency sort:
`a.lastSelected ? new Date(a.lastSelected).getTime() : 0`. -/
def sortKey (p : Participant) : Int :=
  p.lastSelected.getD 0

/-- `participants.sort((a, b) => keyA - keyB)`:
`Array.prototype.sort` is a stable ascending sort, modelled by a stable
insertion sort on the same key. -/
def sortByLastSelected (ps : List Participant) : List Participant :=
  List.insertionSort (fun a b => sortKey a ≤ sortKey b) ps

/-- The recency-exclusion policy (applied when `excludeRecentlySelected`):
sort ascending by `lastSelected` (missing treated as epoch 0), keep the
never-selected candidates if there are any, otherwise keep the
least-recently-selected `ceil(n/2)` candidates. -/
def applyRecencyFilter (ps : List Participant) : List Participant :=
  let sorted := sortByLastSelected ps
  let neverSelected := sorted.filter (fun p => p.lastSelected.isNone)
  if 0 < neverSelected.length then neverSelected
  else sorted.take ((sorted.length + 1) / 2)

/-! ### SelectionStrategy (history.ts lines 228-266) -/

/-- `Math.max(...participants.map(pp => pp.selectionCount))` (counts are
non-negative, so folding from 0 agrees on non-empty pools). -/
def maxSelectionCount (ps : List Participant) : Nat :=
  ps.foldl (fun m p => max m p.selectionCount) 0

/-- The per-candidate weights: the source recomputes
`Math.max(...)` over the whole (fixed) eligible list inside the `map`
callback, so each candidate's weight is `max − selectionCount + 1`. -/
def weightsOf (ps : List Participant) : List Nat :=
  ps.map (fun p => maxSelectionCount ps - p.selectionCount + 1)

/-- The cumulative-sum walk: `weightSum += weights[i];
if (randomWeight <= weightSum) return participants[i]`. -/
def weightedWalk : List Participant → List Nat → ℚ → ℚ → Option Participant
  | [], _, _, _ => none
  | _ :: _, [], _, _ => none
  | p :: ps, w :: ws, rw, acc =>
    if rw ≤ acc + (w : ℚ) then some p else weightedWalk ps ws rw (acc + (w : ℚ))

/-- The `weighted` branch: draw `r · Σweights` and walk the cumulative sums. -/
def pickWeighted (ps : List Participant) (r : ℚ) : Option Participant :=
  let ws := weightsOf ps
  let totalWeight : ℚ := (ws.sum : ℚ)
  weightedWalk ps ws (r * totalWeight) 0

/-- The `random` (default) branch:
`participants[Math.floor(Math.random() * participants.length)]`. -/
def pickRandom (ps : List Participant) (r : ℚ) : Option Participant :=
  ps[(⌊r * (ps.length : ℚ)⌋).toNat]?

/-! ### ParticipantPool (history.ts lines 192-209) -/

/-- The participant query: `{ department, isActive: true }`, narrowed by
`email: { $in: participantEmails }` when the meeting has a roster with at
least one truthy email (`.map(p => p.email).filter(Boolean)`). -/
def poolQuery (db : DB) (meeting : Meeting) (department : String) : List Participant :=
  let base := db.participants.filter (fun p => p.department = department && p.isActive)
  let participantEmails :=
    (meeting.participants.filterMap (fun e => e.email)).filter (fun s => s ≠ "")
  if 0 < meeting.participants.length && 0 < participantEmails.length then
    base.filter (fun p =>
      match p.email with
      | some e => participantEmails.contains e
      | none => false)
  else base

/-! ### selectParticipant (history.ts lines 164-350) -/

/-- The `selectionMethod` enum of the SelectionRecord schema
(`SelectionRecord.ts` lines 71-75): Mongoose validates it on every
`save()` and rejects any other value with a ValidationError. -/
def validSelectionMethod (m : String) : Bool :=
  m = "random" || m = "weighted" || m = "manual"

inductive SelectError
  | meetingNotFound
  | noEligibleParticipants
  | failedToSelect
  | validationFailed
  | transactionFailed
  deriving DecidableEq

/-- The shape the `manual` branch returns for each eligible participant. -/
structure EligibleView where
  id : Nat
  name : String
  department : String
  selectionCount : Nat
  lastSelected : Option Int
  deriving DecidableEq

def toEligibleView (p : Participant) : EligibleView :=
  { id := p.pid, name := p.name, department := p.department,
    selectionCount := p.selectionCount, lastSelected := p.lastSelected }

/-- The `selection` part of a successful response (lines 319-327). -/
structure ChosenView where
  id : Nat
  name : String
  email : Option String
  department : String
  selectionCount : Nat
  lastSelected : Int
  deriving DecidableEq

/-- The `historyRecord` part of a successful response (lines 328-338). -/
structure HistoryRecordView where
  id : Nat
  meetingId : Nat
  meetingName : String
  department : String
  participantId : Nat
  participantName : String
  selectedAt : Int
  sessionId : Nat
  selectionMethod : String
  deriving DecidableEq

inductive SelectResult
  | picked (selection : ChosenView) (historyRecord : HistoryRecordView)
  | eligibleParticipants (l : List EligibleView)
  deriving DecidableEq

/-- The final eligible set: the recency filter applied when
`excludeRecentlySelected` is set, the raw pool otherwise. -/
def eligibleSet (pool : List Participant) (excl : Bool) : List Participant :=
  if excl then applyRecencyFilter pool else pool

/-- The `switch (selectionMethod)` dispatch for the two picking branches:
`'weighted'` draws by cumulative weights, everything else (the `default:`
case) draws uniformly — the dispatch itself has no error branch for
unknown methods; those are rejected later, by the schema enum when the
record is saved. -/
def chosenOf (selectionMethod : String) (ps : List Participant) (r : ℚ) :
    Option Participant :=
  if selectionMethod = "weighted" then pickWeighted ps r else pickRandom ps r

/-- `$inc: { selectionCount: 1 }, $set: { lastSelected: t }` on the
participant with the given `_id`. -/
def bumpParticipant (pid : Nat) (t : Int) (p : Participant) : Participant :=
  if p.pid = pid then
    { p with selectionCount := p.selectionCount + 1, lastSelected := some t }
  else p

/-- `$inc: { 'statistics.totalSpins': 1 },
$set: { 'statistics.lastActivity': t }` on the meeting with the given `_id`. -/
def bumpMeeting (mid : Nat) (t : Int) (m : Meeting) : Meeting :=
  if m.mid = mid then
    { m with statistics :=
        { totalSpins := m.statistics.totalSpins + 1, lastActivity := some t } }
  else m

/-- The `selectParticipant` handler.  `r` is the `Math.random()` result;
`t1, t2, t3, t4` are the four successive `new Date()` readings (record
`selectedAt`, participant `lastSelected`, meeting `lastActivity`, response
`lastSelected`); `newRid` / `newSid` are the fresh record id and the
`uuidv4()` session id; `failAt` says which of the three transactional
writes (if any) fails, in which case the transaction aborts and the state
is unchanged. -/
def selectParticipant (db : DB) (meetingId : Nat) (department : String)
    (meetingName : Option String) (excludeRecentlySelected : Bool)
    (selectionMethod : String) (spinDuration : Option Int) (r : ℚ)
    (newRid newSid : Nat) (t1 t2 t3 t4 : Int) (failAt : Option (Fin 3)) :
    DB × Except SelectError SelectResult :=
  match db.meetings.find? (fun m => m.mid = meetingId) with
  | none => (db, .error .meetingNotFound)
  | some meeting =>
    let pool := poolQuery db meeting department
    if pool.length = 0 then (db, .error .noEligibleParticipants)
    else
      let participants := eligibleSet pool excludeRecentlySelected
      if selectionMethod = "manual" then
        (db, .ok (.eligibleParticipants (participants.map toEligibleView)))
      else
        let selected? := chosenOf selectionMethod participants r
        match selected? with
        | none => (db, .error .failedToSelect)
        | some sel =>
          if !validSelectionMethod selectionMethod then
            (db, .error .validationFailed)
          else if failAt.isSome then (db, .error .transactionFailed)
          else
            let record : SelectionRecord :=
              { rid := newRid, meetingId := meetingId, participantId := sel.pid,
                participantName := sel.name, department := sel.department,
                selectionMethod := selectionMethod, selectionDuration := spinDuration,
                sessionId := newSid, selectedAt := t1 }
            let db' : DB :=
              { db with
                records := db.records ++ [record],
                participants := db.participants.map (bumpParticipant sel.pid t2),
                meetings := db.meetings.map (bumpMeeting meetingId t3) }
            (db', .ok (.picked
              { id := sel.pid, name := sel.name, email := sel.email,
                department := sel.department,
                selectionCount := sel.selectionCount + 1, lastSelected := t4 }
              { id := newRid, meetingId := meetingId,
                meetingName := meetingName.getD meeting.name,
                department := sel.department, participantId := sel.pid,
                participantName := sel.name, selectedAt := t1,
                sessionId := newSid, selectionMethod := selectionMethod }))

/-! ### createSelectionRecord (history.ts lines 55-162) -/

inductive CreateError
  | missingRequiredFields
  | participantNotFound
  | validationFailed
  | transactionFailed
  deriving DecidableEq

/-- The `createSelectionRecord` handler (direct record-writing entry
point).  `t1, t2, t3` are the successive `new Date()` readings; `freshSid`
is the `uuidv4()` fallback session id; `failAt` as in `selectParticipant`. -/
def createSelectionRecord (db : DB) (meetingId : Nat) (_meetingName : Option String)
    (department : Option String) (participantId : Nat) (participantName : String)
    (selectionDuration : Option Int) (selectionMethod : String)
    (sessionId : Option Nat) (newRid freshSid : Nat) (t1 t2 t3 : Int)
    (failAt : Option (Fin 3)) : DB × Except CreateError SelectionRecord :=
  if participantName = "" then (db, .error .missingRequiredFields)
  else
    match db.participants.find? (fun p => p.pid = participantId) with
    | none => (db, .error .participantNotFound)
    | some participant =>
      let meetingFound := (db.meetings.find? (fun m => m.mid = meetingId)).isSome
      let finalDepartment :=
        match department with
        | some d => if d = "" then
            (if participant.department = "" then "General" else participant.department)
          else d
        | none => if participant.department = "" then "General" else participant.department
      let record : SelectionRecord :=
        { rid := newRid, meetingId := meetingId, participantId := participantId,
          participantName := participantName, department := finalDepartment,
          selectionMethod := selectionMethod, selectionDuration := selectionDuration,
          sessionId := sessionId.getD freshSid, selectedAt := t1 }
      if !validSelectionMethod selectionMethod then (db, .error .validationFailed)
      else if failAt.isSome then (db, .error .transactionFailed)
      else
        let db' : DB :=
          { db with
            records := db.records ++ [record],
            participants := db.participants.map (bumpParticipant participantId t2),
            meetings :=
              if meetingFound then db.meetings.map (bumpMeeting meetingId t3)
              else db.meetings }
        (db', .ok record)

/-! ### clearSelectionHistory (history.ts lines 352-422) -/

/-- The response body of `clearSelectionHistory` (lines 405-411): a fixed
message plus an echo of the requested scope — nothing else. -/
structure ClearResponse where
  message : String
  clearedDepartment : String
  clearedMeetingId : String
  deriving DecidableEq

/-- The `deleteMany` filter on `SelectionRecord`. -/
def recordMatchesScope (dept? : Option String) (mid? : Option Nat)
    (rec : SelectionRecord) : Bool :=
  (match dept? with | some d => rec.department = d | none => true) &&
  (match mid? with | some m => rec.meetingId = m | none => true)

/-- The `deleteMany` filter on the legacy `SelectionHistory` collection. -/
def legacyMatchesScope (dept? : Option String) (mid? : Option Nat)
    (rec : LegacyHistoryRecord) : Bool :=
  (match dept? with | some d => rec.department = d | none => true) &&
  (match mid? with | some m => rec.meetingId = m | none => true)

/-- The `updateMany` filter on `Participant` (matches on the participant's
own `department` / `meetingId` fields). -/
def participantMatchesScope (dept? : Option String) (mid? : Option Nat)
    (p : Participant) : Bool :=
  (match dept? with | some d => p.department = d | none => true) &&
  (match mid? with | some m => p.meetingId = some m | none => true)

/-- `$set: { 'statistics.totalSpins': 0, 'statistics.lastActivity': null }`
on the meeting with the given `_id`. -/
def resetMeetingStats (mid : Nat) (m : Meeting) : Meeting :=
  if m.mid = mid then
    { m with statistics := { totalSpins := 0, lastActivity := none } }
  else m

/-- The `clearSelectionHistory` handler: deletes matching records (new and
legacy models), resets matching participants' counters, and — only when a
`meetingId` is in the scope — resets that meeting's statistics. -/
def clearSelectionHistory (db : DB) (dept? : Option String) (mid? : Option Nat) :
    DB × ClearResponse :=
  let db' : DB :=
    { meetings :=
        match mid? with
        | some m => db.meetings.map (resetMeetingStats m)
        | none => db.meetings,
      participants := db.participants.map (fun p =>
        if participantMatchesScope dept? mid? p then
          { p with selectionCount := 0, lastSelected := none }
        else p),
      records := db.records.filter (fun rec => !recordMatchesScope dept? mid? rec),
      legacy := db.legacy.filter (fun rec => !legacyMatchesScope dept? mid? rec) }
  (db',
    { message := "Selection history cleared successfully",
      clearedDepartment := dept?.getD "all",
      clearedMeetingId := (mid?.map toString).getD "all" })

/-! ### AnalyticsService.getSelectionFairness -/

/-- `Math.round` on an exact rational: round half toward `+∞`. -/
def jsRound (q : ℚ) : Int := ⌊q + 1 / 2⌋

/-- Record scoping: `matchFilter.meetingId = meetingId` when given. -/
def scopeRecords (recs : List SelectionRecord) (mid? : Option Nat) :
    List SelectionRecord :=
  match mid? with
  | some m => recs.filter (fun rec => rec.meetingId = m)
  | none => recs

/-- The distinct `participantId` group keys of the `$group` stage, in
first-occurrence order. -/
def distinctParticipantIds (recs : List SelectionRecord) : List Nat :=
  recs.foldl (fun acc rec =>
    if rec.participantId ∈ acc then acc else acc ++ [rec.participantId]) []

/-- One row of the fairness `selectionDistribution` facet. -/
structure DistributionEntry where
  participantId : Nat
  participantName : String
  selectionCount : Nat
  deriving DecidableEq

structure FairnessResult where
  fairnessScore : Int
  participantsSelectedAtLeastOnce : Nat
  totalParticipants : Nat
  selectionDistribution : List DistributionEntry
  deriving DecidableEq

/-- `AnalyticsService.getSelectionFairness`: group the (scoped) selection
records by `participantId` (`selectionCount := $sum: 1`,
`participantName := $first`), then `totalParticipants` = number of groups,
`participantsSelected` = groups with `selectionCount > 0`, and
`fairnessScore = round(participantsSelected / totalParticipants × 100)`;
the zero structure when the aggregation produced no groups. -/
def getSelectionFairness (recs : List SelectionRecord) (mid? : Option Nat) :
    FairnessResult :=
  let inScope := scopeRecords recs mid?
  let pids := distinctParticipantIds inScope
  let groupCount := fun pid => inScope.countP (fun rec => rec.participantId = pid)
  let distribution := pids.map (fun pid =>
    { participantId := pid,
      participantName :=
        ((inScope.find? (fun rec => rec.participantId = pid)).map
          (fun rec => rec.participantName)).getD "",
      selectionCount := groupCount pid : DistributionEntry })
  let totalParticipants := pids.length
  let participantsSelected := (pids.filter (fun pid => 0 < groupCount pid)).length
  if totalParticipants = 0 then
    { fairnessScore := 0, participantsSelectedAtLeastOnce := 0,
      totalParticipants := 0, selectionDistribution := [] }
  else
    { fairnessScore :=
        jsRound (((participantsSelected : ℚ) / (totalParticipants : ℚ)) * 100),
      participantsSelectedAtLeastOnce := participantsSelected,
      totalParticipants := totalParticipants,
      selectionDistribution := distribution }

/-! ### AnalyticsService.getEngagementScore -/

/-- 30 days in milliseconds. -/
def thirtyDaysMs : Int := 30 * 24 * 60 * 60 * 1000

structure EngagementResult where
  overallScore : ℚ
  participationRate : Int
  averageSessionDuration : Int
  repeatUsageRate : Int
  deriving DecidableEq

/-- `AnalyticsService.getEngagementScore`:
`activeParticipants` counts participants with `lastSelected ≥ now − 30d`;
`repeatUsers` counts distinct participants with more than one record in
the 30-day window; the average `selectionDuration` is taken over ALL
records carrying a duration (no window) and divided by 1000;
score = `min(10, pr/100·4 + rr/100·3 + min(1, avgSec/60)·3)` rounded to
one decimal. -/
def getEngagementScore (db : DB) (now : Int) : EngagementResult :=
  let cutoff := now - thirtyDaysMs
  let totalParticipants := db.participants.length
  let activeParticipants := (db.participants.filter (fun p =>
    match p.lastSelected with
    | some t => cutoff ≤ t
    | none => false)).length
  let windowed := db.records.filter (fun rec => cutoff ≤ rec.selectedAt)
  let repeatUsers := ((distinctParticipantIds windowed).filter (fun pid =>
    1 < windowed.countP (fun rec => rec.participantId = pid))).length
  let durations : List Int := db.records.filterMap (fun rec => rec.selectionDuration)
  let avgDurationMs : ℚ :=
    if durations.length = 0 then 0
    else ((durations.sum : ℚ)) / ((durations.length : ℚ))
  let participationRate : ℚ :=
    if 0 < totalParticipants then
      ((activeParticipants : ℚ) / (totalParticipants : ℚ)) * 100
    else 0
  let repeatUsageRate : ℚ :=
    if 0 < activeParticipants then
      ((repeatUsers : ℚ) / (activeParticipants : ℚ)) * 100
    else 0
  let averageSessionDuration : ℚ := avgDurationMs / 1000
  let overallScore : ℚ :=
    min 10
      ((participationRate / 100) * 4 +
       (repeatUsageRate / 100) * 3 +
       (min 1 (averageSessionDuration / 60)) * 3)
  { overallScore := ((jsRound (overallScore * 10) : ℚ)) / 10,
    participationRate := jsRound participationRate,
    averageSessionDuration := jsRound averageSessionDuration,
    repeatUsageRate := jsRound repeatUsageRate }

/-- The engagement score exactly as claim C8 words it: all three
ingredients computed over the trailing 30-day window — participation rate
(distinct selected participants ÷ total active participants), repeat-usage
rate (selected more than once ÷ selected at least once), and normalized
average selection duration of the window's records (capped at 60 s → 1.0);
weighted 4:3:3 on a 10-point scale, rounded to one decimal.  Used only to
compare against the source's `getEngagementScore`. -/
def engagementScorePerClaim (db : DB) (now : Int) : ℚ :=
  let cutoff := now - thirtyDaysMs
  let windowed := db.records.filter (fun rec => cutoff ≤ rec.selectedAt)
  let selectedPids := distinctParticipantIds windowed
  let activeTotal := (db.participants.filter (fun p => p.isActive)).length
  let participation : ℚ :=
    if 0 < activeTotal then (selectedPids.length : ℚ) / (activeTotal : ℚ) else 0
  let repeaters := (selectedPids.filter (fun pid =>
    1 < windowed.countP (fun rec => rec.participantId = pid))).length
  let repeatUsage : ℚ :=
    if 0 < selectedPids.length then (repeaters : ℚ) / (selectedPids.length : ℚ)
    else 0
  let windowDurations := windowed.filterMap (fun rec => rec.selectionDuration)
  let avgSec : ℚ :=
    if windowDurations.length = 0 then 0
    else ((windowDurations.sum : ℚ) / (windowDurations.length : ℚ)) / 1000
  let score : ℚ := participation * 4 + repeatUsage * 3 + (min 1 (avgSec / 60)) * 3
  ((jsRound (score * 10) : ℚ)) / 10

/-- The engagement score as amended: participation rate = participants
with `lastSelected` in the trailing 30-day window ÷ all participants;
repeat-usage rate = distinct participants with more than one windowed
record ÷ participants with `lastSelected` in the window; average duration
over ALL duration-carrying records (no window), capped at 60 s → 1.0;
weighted 4:3:3, clamped at 10, rounded to one decimal.  Stated with
independent counting primitives (`countP`, `dedup`, `filter`+`map`) to be
compared against the source's `getEngagementScore`. -/
def engagementAmendedSpec (db : DB) (now : Int) : EngagementResult :=
  let cutoff := now - thirtyDaysMs
  let inWindow := fun (t? : Option Int) =>
    match t? with
    | some t => cutoff ≤ t
    | none => false
  let fracParticipation : ℚ :=
    if db.participants.isEmpty then 0
    else (db.participants.countP (fun p => inWindow p.lastSelected) : ℚ) /
      (db.participants.length : ℚ)
  let windowed := db.records.filter (fun rec => cutoff ≤ rec.selectedAt)
  let windowedPids := (windowed.map (fun rec => rec.participantId)).dedup
  let repeaters :=
    windowedPids.countP (fun pid =>
      1 < windowed.countP (fun rec => rec.participantId = pid))
  let fracRepeat : ℚ :=
    if db.participants.countP (fun p => inWindow p.lastSelected) = 0 then 0
    else (repeaters : ℚ) / (db.participants.countP (fun p => inWindow p.lastSelected) : ℚ)
  let ds : List Int := (db.records.filter (fun rec => rec.selectionDuration.isSome)).map
    (fun rec => rec.selectionDuration.getD 0)
  let avgSec : ℚ := (if ds.isEmpty then 0 else (ds.sum : ℚ) / (ds.length : ℚ)) / 1000
  let score : ℚ :=
    min 10 (fracParticipation * 4 + fracRepeat * 3 + (min 1 (avgSec / 60)) * 3)
  { overallScore := ((jsRound (score * 10) : ℚ)) / 10,
    participationRate := jsRound (fracParticipation * 100),
    averageSessionDuration := jsRound avgSec,
    repeatUsageRate := jsRound (fracRepeat * 100) }

/-! ### Invariant and auxiliary definitions for the claims -/

/-- Claim C4's invariant: every meeting's `statistics.totalSpins` equals
the number of `SelectionRecord`s carrying its id. -/
def totalSpinsConsistent (db : DB) : Prop :=
  ∀ m ∈ db.meetings,
    m.statistics.totalSpins =
      (db.records.filter (fun rec => rec.meetingId = m.mid)).length

instance (db : DB) : Decidable (totalSpinsConsistent db) :=
  inferInstanceAs (Decidable (∀ m ∈ db.meetings, _))

/-! ### Concrete fixtures used by counterexamples and witnesses -/

/-- A never-selected active participant. -/
def pA : Participant := ⟨1, "A", some "a@x", "Eng", none, true, none, 0⟩

/-- A twice-selected active participant (`lastSelected` = 5). -/
def pB : Participant := ⟨2, "B", some "b@x", "Eng", none, true, some 5, 2⟩

/-- A meeting with an empty roster and zeroed statistics. -/
def meeting0 : Meeting := ⟨1, "Standup", "Eng", [], ⟨0, none⟩⟩

/-- Base state: one meeting, participants A and B, no history. -/
def db0 : DB := ⟨[meeting0], [pA, pB], [], []⟩

/-- A record of participant B (id 2) in meeting 1. -/
def recB (rid : Nat) (t : Int) : SelectionRecord :=
  ⟨rid, 1, 2, "B", "Eng", "random", none, 1, t⟩

/-- State for the C4 counterexample: a consistent meeting with one
recorded spin in department Eng. -/
def db4 : DB :=
  ⟨[⟨1, "Standup", "Eng", [], ⟨1, some 50⟩⟩], [pB], [recB 1 50], []⟩

/-- State for the C8 counterexample: no participants, a single
60-second-duration record older than the 30-day window. -/
def db8 : DB := ⟨[], [], [⟨1, 1, 1, "B", "Eng", "random", some 60000, 1, 0⟩], []⟩

/-- Like `db4` but with two matching records instead of one. -/
def db7b : DB :=
  ⟨[⟨1, "Standup", "Eng", [], ⟨2, some 60⟩⟩], [pB], [recB 1 50, recB 2 60], []⟩

/-- The state after a successful `random` selection of A out of `db0`
(record id 10, session id 7, clock readings 100/101/102). -/
def db0afterArand : DB :=
  ⟨[⟨1, "Standup", "Eng", [], ⟨1, some 102⟩⟩],
   [⟨1, "A", some "a@x", "Eng", none, true, some 101, 1⟩, pB],
   [⟨10, 1, 1, "A", "Eng", "random", none, 7, 100⟩], []⟩

end NameSpinner

namespace NameSpinner

/-! ## Theorems -/

/-! ### Engagement-aggregation lemmas -/

theorem filterMap_duration_eq (l : List SelectionRecord) :
    l.filterMap (fun rec => rec.selectionDuration) =
      (l.filter (fun rec => rec.selectionDuration.isSome)).map
        (fun rec => rec.selectionDuration.getD 0) := by
  induction l with
  | nil => rfl
  | cons rec l ih =>
    cases hd : rec.selectionDuration with
    | none => simp [List.filterMap_cons, hd, ih]
    | some d => simp [List.filterMap_cons, hd, ih]

/-! ### Sorting and eligibility lemmas -/

instance : IsTotal Participant (fun a b => sortKey a ≤ sortKey b) :=
  ⟨fun a b => le_total (sortKey a) (sortKey b)⟩

instance : IsTrans Participant (fun a b => sortKey a ≤ sortKey b) :=
  ⟨fun _ _ _ hab hbc => le_trans hab hbc⟩

theorem perm_sortByLastSelected (ps : List Participant) :
    (sortByLastSelected ps).Perm ps :=
  List.perm_insertionSort _ ps

theorem sorted_sortByLastSelected (ps : List Participant) :
    List.Sorted (fun a b => sortKey a ≤ sortKey b) (sortByLastSelected ps) :=
  List.sorted_insertionSort _ ps

theorem length_sortByLastSelected (ps : List Participant) :
    (sortByLastSelected ps).length = ps.length :=
  (perm_sortByLastSelected ps).length_eq

theorem mem_applyRecencyFilter {p : Participant} {ps : List Participant}
    (h : p ∈ applyRecencyFilter ps) : p ∈ ps := by
  simp only [applyRecencyFilter] at h
  split at h
  · exact (perm_sortByLastSelected ps).mem_iff.mp (List.mem_of_mem_filter h)
  · exact (perm_sortByLastSelected ps).mem_iff.mp (List.mem_of_mem_take h)

theorem applyRecencyFilter_ne_nil {ps : List Participant} (h : ps ≠ []) :
    applyRecencyFilter ps ≠ [] := by
  simp only [applyRecencyFilter]
  split
  · next hlen =>
    intro hnil
    rw [hnil] at hlen
    exact absurd hlen (by simp)
  · intro hnil
    have hlen := congrArg List.length hnil
    rw [List.length_take, length_sortByLastSelected] at hlen
    have hp : 0 < ps.length := List.length_pos.mpr h
    rcases Nat.min_eq_zero_iff.mp hlen with h' | h' <;> omega

/-! ### Weighted-strategy lemmas -/

theorem foldl_max_init_le (ps : List Participant) (a : Nat) :
    a ≤ ps.foldl (fun m p => max m p.selectionCount) a := by
  induction ps generalizing a with
  | nil => exact le_refl a
  | cons p ps ih => exact le_trans (le_max_left a p.selectionCount) (ih _)

theorem selectionCount_le_max {p : Participant} {ps : List Participant}
    (h : p ∈ ps) : p.selectionCount ≤ maxSelectionCount ps := by
  unfold maxSelectionCount
  generalize (0 : Nat) = a
  induction ps generalizing a with
  | nil => cases h
  | cons q ps ih =>
    rcases List.mem_cons.mp h with rfl | hmem
    · exact le_trans (le_max_right a p.selectionCount) (foldl_max_init_le ps _)
    · exact ih hmem _

theorem weightsOf_length (ps : List Participant) :
    (weightsOf ps).length = ps.length :=
  List.length_map _ _

theorem one_le_of_mem_weightsOf {w : Nat} {ps : List Participant}
    (h : w ∈ weightsOf ps) : 1 ≤ w := by
  obtain ⟨p, -, rfl⟩ := List.mem_map.mp h
  exact Nat.succ_le_succ (Nat.zero_le _)

theorem length_le_sum_of_one_le (ws : List Nat) (h : ∀ w ∈ ws, 1 ≤ w) :
    ws.length ≤ ws.sum := by
  induction ws with
  | nil => simp
  | cons w ws ih =>
    have h1 := h w (List.mem_cons_self w ws)
    have h2 := ih (fun x hx => h x (List.mem_cons_of_mem w hx))
    simp only [List.length_cons, List.sum_cons]
    omega

theorem sum_weightsOf_pos {ps : List Participant} (h : ps ≠ []) :
    1 ≤ (weightsOf ps).sum := by
  have hlen : 1 ≤ (weightsOf ps).length := by
    rw [weightsOf_length]
    exact List.length_pos.mpr h
  exact le_trans hlen
    (length_le_sum_of_one_le _ (fun w hw => one_le_of_mem_weightsOf hw))

theorem take_sum_le (ws : List Nat) (k : Nat) : (ws.take k).sum ≤ ws.sum := by
  conv_rhs => rw [← List.take_append_drop k ws]
  rw [List.sum_append]
  exact Nat.le_add_right _ _

theorem take_succ_sum (ws : List Nat) (i : Nat) (h : i < ws.length) :
    (ws.take (i + 1)).sum = (ws.take i).sum + ws[i] := by
  rw [List.take_succ, List.sum_append]
  simp [List.getElem?_eq_getElem h]

theorem cast_sum_cons (w : Nat) (ws : List Nat) :
    (((w :: ws).sum : Nat) : ℚ) = (w : ℚ) + ((ws.sum : Nat) : ℚ) := by
  rw [List.sum_cons, Nat.cast_add]

/-- If the draw is at most the grand total, the cumulative walk stops at
the first index whose cumulative sum reaches the draw. -/
theorem weightedWalk_first_hit (ps : List Participant) (ws : List Nat)
    (rw acc : ℚ) (hlen : ws.length = ps.length) (hne : ps ≠ [])
    (hle : rw ≤ acc + (ws.sum : ℚ)) :
    ∃ i, ∃ h : i < ps.length,
      weightedWalk ps ws rw acc = some ps[i] ∧
      rw ≤ acc + ((ws.take (i + 1)).sum : ℚ) ∧
      ∀ j < i, acc + ((ws.take (j + 1)).sum : ℚ) < rw := by
  induction ps generalizing ws acc with
  | nil => exact absurd rfl hne
  | cons p ps ih =>
    cases ws with
    | nil => simp at hlen
    | cons w ws =>
      rw [cast_sum_cons] at hle
      by_cases hw : rw ≤ acc + (w : ℚ)
      · refine ⟨0, by simp, ?_, ?_, ?_⟩
        · simp [weightedWalk, hw]
        · rw [List.take_succ_cons, List.take_zero, cast_sum_cons]
          simpa using hw
        · intro j hj
          exact absurd hj (Nat.not_lt_zero j)
      · have hps : ps ≠ [] := by
          intro hnil
          subst hnil
          have hws : ws = [] := List.length_eq_zero.mp (by simpa using hlen)
          subst hws
          simp at hle
          exact hw hle
        obtain ⟨i, hi, hwalk, hhigh, hlow⟩ :=
          ih ws (acc + (w : ℚ)) (by simpa using hlen) hps (by linarith)
        refine ⟨i + 1, Nat.succ_lt_succ hi, ?_, ?_, ?_⟩
        · rw [List.getElem_cons_succ]
          simpa [weightedWalk, hw] using hwalk
        · rw [List.take_succ_cons, cast_sum_cons]
          linarith
        · intro j hj
          cases j with
          | zero =>
            rw [List.take_succ_cons, List.take_zero, cast_sum_cons]
            simpa using lt_of_not_le hw
          | succ j' =>
            have hj' := hlow j' (by omega)
            rw [List.take_succ_cons, cast_sum_cons]
            linarith

/-- Determinism of the cumulative walk on the open-closed interval of
index `i`. -/
theorem weightedWalk_hits (ps : List Participant) (ws : List Nat)
    (rw acc : ℚ) (hlen : ws.length = ps.length) (i : Nat) (h : i < ps.length)
    (hlow : acc + ((ws.take i).sum : ℚ) < rw)
    (hhigh : rw ≤ acc + ((ws.take (i + 1)).sum : ℚ)) :
    weightedWalk ps ws rw acc = some ps[i] := by
  induction i generalizing ps ws acc with
  | zero =>
    cases ps with
    | nil => simp at h
    | cons p ps =>
      cases ws with
      | nil => simp at hlen
      | cons w ws =>
        rw [List.take_succ_cons, List.take_zero, cast_sum_cons] at hhigh
        have hcond : rw ≤ acc + (w : ℚ) := by simpa using hhigh
        simp [weightedWalk, hcond]
  | succ i' ih =>
    cases ps with
    | nil => simp at h
    | cons p ps =>
      cases ws with
      | nil => simp at hlen
      | cons w ws =>
        rw [List.take_succ_cons, cast_sum_cons] at hlow
        rw [List.take_succ_cons, cast_sum_cons] at hhigh
        have hnn : (0 : ℚ) ≤ ((ws.take i').sum : ℚ) := Nat.cast_nonneg _
        have hnot : ¬ rw ≤ acc + (w : ℚ) := by
          intro hcon
          linarith
        have hres := ih ps ws (acc + (w : ℚ)) (by simpa using hlen)
          (by simpa using h) (by linarith) (by linarith)
        rw [List.getElem_cons_succ]
        simpa [weightedWalk, hnot] using hres

theorem weightedWalk_mem {ps : List Participant} {ws : List Nat} {rw acc : ℚ}
    {p : Participant} (h : weightedWalk ps ws rw acc = some p) : p ∈ ps := by
  induction ps generalizing ws acc with
  | nil => simp [weightedWalk] at h
  | cons q qs ih =>
    cases ws with
    | nil => simp [weightedWalk] at h
    | cons w ws =>
      by_cases hw : rw ≤ acc + (w : ℚ)
      · simp [weightedWalk, hw] at h
        exact h ▸ List.mem_cons_self q qs
      · simp only [weightedWalk, if_neg hw] at h
        exact List.mem_cons_of_mem q (ih h)

theorem pickWeighted_mem {ps : List Participant} {r : ℚ} {p : Participant}
    (h : pickWeighted ps r = some p) : p ∈ ps :=
  weightedWalk_mem h

theorem pickRandom_mem {ps : List Participant} {r : ℚ} {p : Participant}
    (h : pickRandom ps r = some p) : p ∈ ps := by
  unfold pickRandom at h
  exact List.getElem?_mem h

theorem randomIndex_lt {ps : List Participant} {r : ℚ} (hne : ps ≠ [])
    (h0 : 0 ≤ r) (h1 : r < 1) :
    (⌊r * (ps.length : ℚ)⌋).toNat < ps.length := by
  have hlen : 0 < ps.length := List.length_pos.mpr hne
  have hposlen : (0 : ℚ) < (ps.length : ℚ) := by exact_mod_cast hlen
  have hmul : r * (ps.length : ℚ) < (ps.length : ℚ) := by
    calc r * (ps.length : ℚ) < 1 * (ps.length : ℚ) :=
          mul_lt_mul_of_pos_right h1 hposlen
      _ = (ps.length : ℚ) := one_mul _
  have hfl : ⌊r * (ps.length : ℚ)⌋ < (ps.length : Int) :=
    Int.floor_lt.mpr (by exact_mod_cast hmul)
  have hnn : 0 ≤ ⌊r * (ps.length : ℚ)⌋ :=
    Int.floor_nonneg.mpr (mul_nonneg h0 (le_of_lt hposlen))
  omega

theorem pickRandom_isSome {ps : List Participant} {r : ℚ} (hne : ps ≠ [])
    (h0 : 0 ≤ r) (h1 : r < 1) : (pickRandom ps r).isSome := by
  unfold pickRandom
  simp [List.getElem?_eq_getElem (randomIndex_lt hne h0 h1)]

theorem pickWeighted_isSome {ps : List Participant} {r : ℚ} (hne : ps ≠ [])
    (h0 : 0 ≤ r) (h1 : r < 1) : (pickWeighted ps r).isSome := by
  unfold pickWeighted
  have hsum : 1 ≤ ((weightsOf ps).sum : ℚ) := by
    exact_mod_cast sum_weightsOf_pos hne
  have hle : r * ((weightsOf ps).sum : ℚ) ≤ 0 + ((weightsOf ps).sum : ℚ) := by
    rw [zero_add]
    calc r * ((weightsOf ps).sum : ℚ) ≤ 1 * ((weightsOf ps).sum : ℚ) :=
          mul_le_mul_of_nonneg_right (le_of_lt h1) (by linarith)
      _ = ((weightsOf ps).sum : ℚ) := one_mul _
  obtain ⟨i, hi, hwalk, -, -⟩ :=
    weightedWalk_first_hit ps (weightsOf ps) (r * ((weightsOf ps).sum : ℚ)) 0
      (weightsOf_length ps) hne hle
  rw [hwalk]
  rfl

/-- C5: the weighted strategy gives every eligible candidate the weight
`max(selectionCount over the eligible set) − selectionCount + 1` — a single
maximum value (`maxSelectionCount ps`) used for every candidate, the
subtraction exact over ℤ and every weight at least 1; a draw
`r ∈ [0, 1)` scaled by the total weight returns the first candidate (in
candidate order) whose cumulative weight sum reaches the scaled draw; and
every candidate has a draw interval selecting it, so every eligible
candidate has strictly positive selection probability. -/
theorem weighted_strategy_spec (ps : List Participant) :
    (∀ i, ∀ h : i < ps.length,
      ∃ w, (weightsOf ps)[i]? = some w ∧ 1 ≤ w ∧
        (w : ℤ) = (maxSelectionCount ps : ℤ) -
          ((ps.get ⟨i, h⟩).selectionCount : ℤ) + 1) ∧
    (∀ r : ℚ, 0 ≤ r → r < 1 → ps ≠ [] →
      ∃ i, ∃ h : i < ps.length,
        pickWeighted ps r = some (ps.get ⟨i, h⟩) ∧
        r * ((weightsOf ps).sum : ℚ) ≤ (((weightsOf ps).take (i + 1)).sum : ℚ) ∧
        ∀ j < i, (((weightsOf ps).take (j + 1)).sum : ℚ) <
          r * ((weightsOf ps).sum : ℚ)) ∧
    (∀ i, ∀ h : i < ps.length,
      ∃ r : ℚ, 0 ≤ r ∧ r < 1 ∧ pickWeighted ps r = some (ps.get ⟨i, h⟩)) := by
  refine ⟨?_, ?_, ?_⟩
  · intro i h
    have hmem : ps.get ⟨i, h⟩ ∈ ps := List.get_mem ps i h
    have hle := selectionCount_le_max hmem
    refine ⟨maxSelectionCount ps - (ps.get ⟨i, h⟩).selectionCount + 1, ?_, ?_, ?_⟩
    · simp [weightsOf, List.getElem?_eq_getElem h, List.get_eq_getElem]
    · exact Nat.succ_le_succ (Nat.zero_le _)
    · push_cast [hle]
      ring
  · intro r h0 h1 hne
    have hsumq : (1 : ℚ) ≤ ((weightsOf ps).sum : ℚ) := by
      exact_mod_cast sum_weightsOf_pos hne
    have hle : r * ((weightsOf ps).sum : ℚ) ≤ 0 + ((weightsOf ps).sum : ℚ) := by
      rw [zero_add]
      calc r * ((weightsOf ps).sum : ℚ) ≤ 1 * ((weightsOf ps).sum : ℚ) :=
            mul_le_mul_of_nonneg_right (le_of_lt h1) (by linarith)
        _ = ((weightsOf ps).sum : ℚ) := one_mul _
    obtain ⟨i, hi, hwalk, hhigh, hlow⟩ :=
      weightedWalk_first_hit ps (weightsOf ps) (r * ((weightsOf ps).sum : ℚ)) 0
        (weightsOf_length ps) hne hle
    refine ⟨i, hi, ?_, ?_, ?_⟩
    · simpa [pickWeighted, List.get_eq_getElem] using hwalk
    · simpa using hhigh
    · intro j hj
      simpa using hlow j hj
  · intro i h
    have hiW : i < (weightsOf ps).length := by
      rw [weightsOf_length]
      exact h
    have hw1 : 1 ≤ (weightsOf ps)[i] :=
      one_le_of_mem_weightsOf (List.getElem_mem hiW)
    have hne : ps ≠ [] := List.ne_nil_of_length_pos (lt_of_le_of_lt (Nat.zero_le i) h)
    have htot : 1 ≤ (weightsOf ps).sum := sum_weightsOf_pos hne
    have hts : ((weightsOf ps).take (i + 1)).sum =
        ((weightsOf ps).take i).sum + (weightsOf ps)[i] := take_succ_sum _ i hiW
    have hcumle : ((weightsOf ps).take (i + 1)).sum ≤ (weightsOf ps).sum :=
      take_sum_le _ (i + 1)
    have hT1 : (1 : ℚ) ≤ ((weightsOf ps).sum : ℚ) := by exact_mod_cast htot
    have hTpos : (0 : ℚ) < ((weightsOf ps).sum : ℚ) := by linarith
    have hc1 : (1 : ℚ) ≤ (((weightsOf ps).take (i + 1)).sum : ℚ) := by
      have : 1 ≤ ((weightsOf ps).take (i + 1)).sum := by omega
      exact_mod_cast this
    have hcT : (((weightsOf ps).take (i + 1)).sum : ℚ) ≤ ((weightsOf ps).sum : ℚ) := by
      exact_mod_cast hcumle
    have htsq : (((weightsOf ps).take (i + 1)).sum : ℚ) =
        (((weightsOf ps).take i).sum : ℚ) + ((weightsOf ps)[i] : ℚ) := by
      exact_mod_cast hts
    have hwq : (1 : ℚ) ≤ ((weightsOf ps)[i] : ℚ) := by exact_mod_cast hw1
    have hlow : (0 : ℚ) + (((weightsOf ps).take i).sum : ℚ) <
        (((weightsOf ps).take (i + 1)).sum : ℚ) - 1 / 2 := by
      rw [zero_add]
      linarith
    have hhigh : (((weightsOf ps).take (i + 1)).sum : ℚ) - 1 / 2 ≤
        0 + (((weightsOf ps).take (i + 1)).sum : ℚ) := by
      rw [zero_add]
      linarith
    have hwalk := weightedWalk_hits ps (weightsOf ps)
      ((((weightsOf ps).take (i + 1)).sum : ℚ) - 1 / 2) 0
      (weightsOf_length ps) i h hlow hhigh
    refine ⟨((((weightsOf ps).take (i + 1)).sum : ℚ) - 1 / 2) /
      ((weightsOf ps).sum : ℚ), ?_, ?_, ?_⟩
    · apply div_nonneg _ (le_of_lt hTpos)
      linarith
    · rw [div_lt_one hTpos]
      linarith
    · show weightedWalk ps (weightsOf ps) _ 0 = _
      rw [div_mul_cancel₀ _ (ne_of_gt hTpos)]
      simpa [List.get_eq_getElem] using hwalk

/-- C5 witness: on the pool [A (count 0), B (count 2)] there is a draw
`r ∈ [0, 1)` under which the weighted strategy picks B (the second,
more-selected candidate). -/
theorem weighted_strategy_spec_witness :
    ∃ r : ℚ, 0 ≤ r ∧ r < 1 ∧
      pickWeighted [pA, pB] r = some ([pA, pB].get ⟨1, by decide⟩) :=
  (weighted_strategy_spec [pA, pB]).2.2 1 (by decide)

/-- C2: for every pool with `excludeRecentlySelected = true`: if some
candidate has no `lastSelected`, the eligible set is exactly (a
permutation of) the never-selected subset; if every candidate has one, the
eligible set is the `ceil(n/2)` least-recently-selected candidates, sorted
ascending — every kept candidate's `lastSelected` is at most every dropped
candidate's. -/
theorem applyRecencyFilter_spec (ps : List Participant) :
    ((∃ p ∈ ps, p.lastSelected = none) →
      (applyRecencyFilter ps).Perm
        (ps.filter (fun p => p.lastSelected.isNone))) ∧
    ((∀ p ∈ ps, p.lastSelected ≠ none) →
      (applyRecencyFilter ps).length = (ps.length + 1) / 2 ∧
      List.Sorted (fun a b => sortKey a ≤ sortKey b) (applyRecencyFilter ps) ∧
      ∃ rest, ((applyRecencyFilter ps) ++ rest).Perm ps ∧
        ∀ a ∈ applyRecencyFilter ps, ∀ b ∈ rest, sortKey a ≤ sortKey b) := by
  constructor
  · rintro ⟨p, hp, hnone⟩
    have hmem : p ∈ sortByLastSelected ps :=
      (perm_sortByLastSelected ps).mem_iff.mpr hp
    have hmemf : p ∈ (sortByLastSelected ps).filter (fun q => q.lastSelected.isNone) :=
      List.mem_filter.mpr ⟨hmem, by simp [hnone]⟩
    have hpos : 0 < ((sortByLastSelected ps).filter
        (fun q => q.lastSelected.isNone)).length :=
      List.length_pos.mpr (List.ne_nil_of_mem hmemf)
    simp only [applyRecencyFilter, if_pos hpos]
    exact (perm_sortByLastSelected ps).filter _
  · intro hall
    have hfilter : (sortByLastSelected ps).filter
        (fun q => q.lastSelected.isNone) = [] := by
      rw [List.filter_eq_nil_iff]
      intro a ha
      have hne := hall a ((perm_sortByLastSelected ps).mem_iff.mp ha)
      simp [Option.isNone_iff_eq_none, hne]
    have hk : (ps.length + 1) / 2 ≤ ps.length := by omega
    have heq : applyRecencyFilter ps =
        (sortByLastSelected ps).take ((ps.length + 1) / 2) := by
      simp only [applyRecencyFilter, hfilter, length_sortByLastSelected]
      simp
    refine ⟨?_, ?_, ?_⟩
    · rw [heq, List.length_take, length_sortByLastSelected]
      omega
    · rw [heq]
      exact (sorted_sortByLastSelected ps).sublist
        (List.take_sublist _ _)
    · refine ⟨(sortByLastSelected ps).drop ((ps.length + 1) / 2), ?_, ?_⟩
      · rw [heq, List.take_append_drop]
        exact perm_sortByLastSelected ps
      · have hpw : List.Pairwise (fun a b => sortKey a ≤ sortKey b)
            ((sortByLastSelected ps).take ((ps.length + 1) / 2) ++
             (sortByLastSelected ps).drop ((ps.length + 1) / 2)) := by
          rw [List.take_append_drop]
          exact sorted_sortByLastSelected ps
        rw [heq]
        exact (List.pairwise_append.mp hpw).2.2

/-- C2 witness: on the three-candidate pool [B, B5, B9] (all previously
selected, `lastSelected` 5, 5, 9), the eligible set has the claimed
size `ceil(3/2) = 2`, is sorted, and splits below the dropped rest. -/
theorem applyRecencyFilter_spec_witness :
    (∀ p ∈ [pB, ⟨3, "C", none, "Eng", none, true, some 9, 1⟩,
        ⟨4, "D", none, "Eng", none, true, some 5, 3⟩], p.lastSelected ≠ none) ∧
    ((applyRecencyFilter [pB, ⟨3, "C", none, "Eng", none, true, some 9, 1⟩,
        ⟨4, "D", none, "Eng", none, true, some 5, 3⟩]).length = (3 + 1) / 2 ∧
      List.Sorted (fun a b => sortKey a ≤ sortKey b)
        (applyRecencyFilter [pB, ⟨3, "C", none, "Eng", none, true, some 9, 1⟩,
          ⟨4, "D", none, "Eng", none, true, some 5, 3⟩]) ∧
      ∃ rest, ((applyRecencyFilter [pB, ⟨3, "C", none, "Eng", none, true, some 9, 1⟩,
          ⟨4, "D", none, "Eng", none, true, some 5, 3⟩]) ++ rest).Perm
          [pB, ⟨3, "C", none, "Eng", none, true, some 9, 1⟩,
            ⟨4, "D", none, "Eng", none, true, some 5, 3⟩] ∧
        ∀ a ∈ applyRecencyFilter [pB, ⟨3, "C", none, "Eng", none, true, some 9, 1⟩,
            ⟨4, "D", none, "Eng", none, true, some 5, 3⟩],
          ∀ b ∈ rest, sortKey a ≤ sortKey b) :=
  ⟨by decide,
   (applyRecencyFilter_spec [pB, ⟨3, "C", none, "Eng", none, true, some 9, 1⟩,
      ⟨4, "D", none, "Eng", none, true, some 5, 3⟩]).2 (by decide)⟩

/-! ### Case analysis of the select handler -/

theorem chosenOf_mem {meth : String} {ps : List Participant} {r : ℚ}
    {p : Participant} (h : chosenOf meth ps r = some p) : p ∈ ps := by
  unfold chosenOf at h
  split at h
  · exact pickWeighted_mem h
  · exact pickRandom_mem h

theorem chosenOf_isSome {meth : String} {ps : List Participant} {r : ℚ}
    (hne : ps ≠ []) (h0 : 0 ≤ r) (h1 : r < 1) : (chosenOf meth ps r).isSome := by
  unfold chosenOf
  split
  · exact pickWeighted_isSome hne h0 h1
  · exact pickRandom_isSome hne h0 h1

theorem mem_eligibleSet {p : Participant} {pool : List Participant} {excl : Bool}
    (h : p ∈ eligibleSet pool excl) : p ∈ pool := by
  unfold eligibleSet at h
  split at h
  · exact mem_applyRecencyFilter h
  · exact h

theorem eligibleSet_ne_nil {pool : List Participant} (excl : Bool)
    (h : pool ≠ []) : eligibleSet pool excl ≠ [] := by
  unfold eligibleSet
  split
  · exact applyRecencyFilter_ne_nil h
  · exact h

theorem mem_poolQuery {p : Participant} {db : DB} {meeting : Meeting}
    {dept : String} (h : p ∈ poolQuery db meeting dept) : p ∈ db.participants := by
  simp only [poolQuery] at h
  split at h
  · exact List.mem_of_mem_filter (List.mem_of_mem_filter h)
  · exact List.mem_of_mem_filter h

/-- Exhaustive case analysis of `selectParticipant`: exactly one of the
six exits happens, with its guard conditions. -/
theorem selectParticipant_cases (db : DB) (mid : Nat) (dept : String)
    (mn : Option String) (excl : Bool) (meth : String) (dur : Option Int)
    (r : ℚ) (rid sid : Nat) (t1 t2 t3 t4 : Int) (failAt : Option (Fin 3)) :
    (db.meetings.find? (fun m => m.mid = mid) = none ∧
      selectParticipant db mid dept mn excl meth dur r rid sid t1 t2 t3 t4 failAt =
        (db, .error .meetingNotFound)) ∨
    (∃ meeting, db.meetings.find? (fun m => m.mid = mid) = some meeting ∧
      (poolQuery db meeting dept).length = 0 ∧
      selectParticipant db mid dept mn excl meth dur r rid sid t1 t2 t3 t4 failAt =
        (db, .error .noEligibleParticipants)) ∨
    (∃ meeting, db.meetings.find? (fun m => m.mid = mid) = some meeting ∧
      (poolQuery db meeting dept).length ≠ 0 ∧ meth = "manual" ∧
      selectParticipant db mid dept mn excl meth dur r rid sid t1 t2 t3 t4 failAt =
        (db, .ok (.eligibleParticipants
          ((eligibleSet (poolQuery db meeting dept) excl).map toEligibleView)))) ∨
    (∃ meeting, db.meetings.find? (fun m => m.mid = mid) = some meeting ∧
      (poolQuery db meeting dept).length ≠ 0 ∧ meth ≠ "manual" ∧
      chosenOf meth (eligibleSet (poolQuery db meeting dept) excl) r = none ∧
      selectParticipant db mid dept mn excl meth dur r rid sid t1 t2 t3 t4 failAt =
        (db, .error .failedToSelect)) ∨
    (∃ meeting sel, db.meetings.find? (fun m => m.mid = mid) = some meeting ∧
      (poolQuery db meeting dept).length ≠ 0 ∧ meth ≠ "manual" ∧
      chosenOf meth (eligibleSet (poolQuery db meeting dept) excl) r = some sel ∧
      validSelectionMethod meth = false ∧
      selectParticipant db mid dept mn excl meth dur r rid sid t1 t2 t3 t4 failAt =
        (db, .error .validationFailed)) ∨
    (∃ meeting sel, db.meetings.find? (fun m => m.mid = mid) = some meeting ∧
      (poolQuery db meeting dept).length ≠ 0 ∧ meth ≠ "manual" ∧
      chosenOf meth (eligibleSet (poolQuery db meeting dept) excl) r = some sel ∧
      validSelectionMethod meth = true ∧ failAt.isSome ∧
      selectParticipant db mid dept mn excl meth dur r rid sid t1 t2 t3 t4 failAt =
        (db, .error .transactionFailed)) ∨
    (∃ meeting sel, db.meetings.find? (fun m => m.mid = mid) = some meeting ∧
      (poolQuery db meeting dept).length ≠ 0 ∧ meth ≠ "manual" ∧
      chosenOf meth (eligibleSet (poolQuery db meeting dept) excl) r = some sel ∧
      validSelectionMethod meth = true ∧ failAt = none ∧ sel ∈ db.participants ∧
      selectParticipant db mid dept mn excl meth dur r rid sid t1 t2 t3 t4 failAt =
        ({ db with
            records := db.records ++
              [⟨rid, mid, sel.pid, sel.name, sel.department, meth, dur, sid, t1⟩],
            participants := db.participants.map (bumpParticipant sel.pid t2),
            meetings := db.meetings.map (bumpMeeting mid t3) },
         .ok (.picked
           ⟨sel.pid, sel.name, sel.email, sel.department, sel.selectionCount + 1, t4⟩
           ⟨rid, mid, mn.getD meeting.name, sel.department, sel.pid, sel.name,
             t1, sid, meth⟩))) := by
  cases hfind : db.meetings.find? (fun m => m.mid = mid) with
  | none =>
    exact Or.inl ⟨rfl, by simp [selectParticipant, hfind]⟩
  | some meeting =>
    by_cases hpool : (poolQuery db meeting dept).length = 0
    · exact Or.inr (Or.inl ⟨meeting, rfl, hpool,
        by simp [selectParticipant, hfind, hpool]⟩)
    · by_cases hm : meth = "manual"
      · refine Or.inr (Or.inr (Or.inl ⟨meeting, rfl, hpool, hm, ?_⟩))
        subst hm
        simp [selectParticipant, hfind, hpool]
      · cases hsel : chosenOf meth (eligibleSet (poolQuery db meeting dept) excl) r with
        | none =>
          refine Or.inr (Or.inr (Or.inr (Or.inl ⟨meeting, rfl, hpool, hm, hsel, ?_⟩)))
          simp [selectParticipant, hfind, hpool, hm, hsel]
        | some sel =>
          have hmem : sel ∈ db.participants :=
            mem_poolQuery (mem_eligibleSet (chosenOf_mem hsel))
          cases hv : validSelectionMethod meth with
          | false =>
            refine Or.inr (Or.inr (Or.inr (Or.inr (Or.inl
              ⟨meeting, sel, rfl, hpool, hm, hsel, rfl, ?_⟩))))
            simp [selectParticipant, hfind, hpool, hm, hsel, hv]
          | true =>
            cases failAt with
            | some k =>
              refine Or.inr (Or.inr (Or.inr (Or.inr (Or.inr (Or.inl
                ⟨meeting, sel, rfl, hpool, hm, hsel, rfl, rfl, ?_⟩)))))
              simp [selectParticipant, hfind, hpool, hm, hsel, hv]
            | none =>
              refine Or.inr (Or.inr (Or.inr (Or.inr (Or.inr (Or.inr
                ⟨meeting, sel, rfl, hpool, hm, hsel, rfl, rfl, hmem, ?_⟩)))))
              simp [selectParticipant, hfind, hpool, hm, hsel, hv]

/-- C6 counterexample: a request with `selectionMethod = "bogus"` does
not fail with a dedicated `InvalidSelectionMethod` error — no such error
exists in the code.  The `switch`'s `default:` branch performs the random
draw, but `save()` is then rejected by the SelectionRecord schema enum
(`SelectionRecord.ts` lines 71-75), the transaction aborts, and the
handler answers the generic 500 `Error selecting participant`
(`validationFailed` here), with the state unchanged. -/
theorem unknown_method_no_invalid_method_error_cex :
    selectParticipant db0 1 "Eng" none true "bogus" none 0 10 7 100 101 102 103 none =
      (db0, .error .validationFailed) := by
  simp [selectParticipant, poolQuery, eligibleSet, chosenOf, validSelectionMethod,
    applyRecencyFilter, sortByLastSelected, sortKey, pickRandom, db0, meeting0, pA, pB]

/-- C6 amended: for every selection request whose `selectionMethod` value
is outside {random, weighted, manual}, the dispatch falls through to the
uniform-random `default:` branch, but the schema enum rejects the value
when the record is saved, so the operation fails — with the generic 500
validation error, not a dedicated `InvalidSelectionMethod` — and performs
no selection: the state is unchanged and no success response is possible;
whenever the pipeline reaches the write phase (meeting found, non-empty
pool, draw in `[0, 1)`) the outcome is exactly `(db, validationFailed)`. -/
theorem unknown_method_fails_validation (db : DB) (mid : Nat) (dept : String)
    (mn : Option String) (excl : Bool) (meth : String) (dur : Option Int)
    (r : ℚ) (rid sid : Nat) (t1 t2 t3 t4 : Int) (failAt : Option (Fin 3))
    (h1 : meth ≠ "random") (h2 : meth ≠ "weighted") (h3 : meth ≠ "manual") :
    (selectParticipant db mid dept mn excl meth dur r rid sid t1 t2 t3 t4 failAt).1 =
      db ∧
    (∀ res,
      (selectParticipant db mid dept mn excl meth dur r rid sid t1 t2 t3 t4 failAt).2 ≠
        Except.ok res) ∧
    (∀ meeting, db.meetings.find? (fun m => m.mid = mid) = some meeting →
      poolQuery db meeting dept ≠ [] → 0 ≤ r → r < 1 →
      selectParticipant db mid dept mn excl meth dur r rid sid t1 t2 t3 t4 failAt =
        (db, .error .validationFailed)) := by
  have hv : validSelectionMethod meth = false := by
    simp [validSelectionMethod, h1, h2, h3]
  rcases selectParticipant_cases db mid dept mn excl meth dur r rid sid t1 t2 t3 t4 failAt with
    ⟨hfind0, hres⟩ | ⟨m, hfind0, hpool0, hres⟩ | ⟨m, -, -, hmm, hres⟩ |
    ⟨m, hfind0, -, -, hsel0, hres⟩ | ⟨m, sel, -, -, -, -, -, hres⟩ |
    ⟨m, sel, -, -, -, -, hv0, -, hres⟩ | ⟨m, sel, -, -, -, -, hv0, -, -, hres⟩
  · refine ⟨by rw [hres], ?_, ?_⟩
    · intro res
      rw [hres]
      simp
    · intro meeting hfind hp hr0 hr1
      rw [hfind0] at hfind
      cases hfind
  · refine ⟨by rw [hres], ?_, ?_⟩
    · intro res
      rw [hres]
      simp
    · intro meeting hfind hp hr0 hr1
      rw [hfind0] at hfind
      have hm := Option.some.inj hfind
      subst hm
      exact absurd (List.length_eq_zero.mp hpool0) hp
  · exact absurd hmm h3
  · refine ⟨by rw [hres], ?_, ?_⟩
    · intro res
      rw [hres]
      simp
    · intro meeting hfind hp hr0 hr1
      rw [hfind0] at hfind
      have hm := Option.some.inj hfind
      subst hm
      have hne := eligibleSet_ne_nil excl hp
      have hsome := @chosenOf_isSome meth
        (eligibleSet (poolQuery db m dept) excl) r hne hr0 hr1
      rw [hsel0] at hsome
      simp at hsome
  · refine ⟨by rw [hres], ?_, ?_⟩
    · intro res
      rw [hres]
      simp
    · intro meeting hfind hp hr0 hr1
      exact hres
  · exact absurd hv0 (by simp [hv])
  · exact absurd hv0 (by simp [hv])

/-- C6 amended witness: the concrete `"alien"` run on `db0` with draw 0
reaches the write phase and fails validation with the state unchanged. -/
theorem unknown_method_fails_validation_witness :
    selectParticipant db0 1 "Eng" none true "alien" none 0 10 7 100 101 102 103 none =
      (db0, .error .validationFailed) :=
  (unknown_method_fails_validation db0 1 "Eng" none true "alien" none 0 10 7
      100 101 102 103 none (by decide) (by decide) (by decide)).2.2
    meeting0 (by decide) (by decide) (by norm_num) (by norm_num)

/-- C3 counterexample: a fully successful selection (method `random`,
clock readings 100, 101, 102, 103) stores `selectedAt = 100` on the new
SelectionRecord but `lastSelected = some 101` on the chosen participant —
the two `new Date()` calls are distinct, so "lastSelectedAt equals the new
record's timestamp" is false as soon as the clock advances between the two
writes. -/
theorem select_lastSelected_differs_from_record_cex :
    (selectParticipant db0 1 "Eng" none true "random" none 0 10 7 100 101 102 103 none).2 =
      .ok (.picked ⟨1, "A", some "a@x", "Eng", 1, 103⟩
        ⟨10, 1, "Standup", "Eng", 1, "A", 100, 7, "random"⟩) ∧
    (selectParticipant db0 1 "Eng" none true "random" none 0 10 7 100 101 102 103 none).1.records =
      [⟨10, 1, 1, "A", "Eng", "random", none, 7, 100⟩] ∧
    (selectParticipant db0 1 "Eng" none true "random" none 0 10 7 100 101 102 103 none).1.participants =
      [⟨1, "A", some "a@x", "Eng", none, true, some 101, 1⟩, pB] ∧
    some (101 : Int) ≠ some (100 : Int) := by
  refine ⟨?_, ?_, ?_, by decide⟩ <;>
    simp [selectParticipant, poolQuery, eligibleSet, chosenOf, validSelectionMethod,
      applyRecencyFilter, sortByLastSelected, sortKey, pickRandom, bumpParticipant,
      bumpMeeting, db0, meeting0, pA, pB]

/-- C3 amended: the three writes are atomic — a successful pick (`.ok
.picked`) happens exactly when no write fails, and then exactly one new
SelectionRecord (with `selectedAt = t1`, the first clock reading) is
appended, the chosen participant's `selectionCount` grows by exactly 1
with `lastSelected` set to `t2` (the second clock reading, which can
differ from `t1`), and the meeting's `totalSpins` grows by 1 with
`lastActivity := t3`; every error exit (including a mid-sequence write
failure, which is surfaced and never retried) leaves the state completely
unchanged. -/
theorem selectParticipant_atomic_amended (db : DB) (mid : Nat) (dept : String)
    (mn : Option String) (excl : Bool) (meth : String) (dur : Option Int)
    (r : ℚ) (rid sid : Nat) (t1 t2 t3 t4 : Int) (failAt : Option (Fin 3)) :
    (∀ db' s h,
      selectParticipant db mid dept mn excl meth dur r rid sid t1 t2 t3 t4 failAt =
        (db', .ok (.picked s h)) →
      failAt = none ∧
      db'.records = db.records ++
        [⟨rid, mid, s.id, s.name, s.department, meth, dur, sid, t1⟩] ∧
      h.selectedAt = t1 ∧
      db'.participants = db.participants.map (bumpParticipant s.id t2) ∧
      db'.meetings = db.meetings.map (bumpMeeting mid t3) ∧
      ∃ p ∈ db.participants, p.pid = s.id ∧
        s.selectionCount = p.selectionCount + 1) ∧
    (∀ db' e,
      selectParticipant db mid dept mn excl meth dur r rid sid t1 t2 t3 t4 failAt =
        (db', .error e) →
      db' = db) := by
  constructor
  · intro db' s h heq
    rcases selectParticipant_cases db mid dept mn excl meth dur r rid sid t1 t2 t3 t4 failAt with
      ⟨-, hres⟩ | ⟨m, -, -, hres⟩ | ⟨m, -, -, -, hres⟩ | ⟨m, -, -, -, -, hres⟩ |
      ⟨m, sel, -, -, -, -, -, hres⟩ | ⟨m, sel, -, -, -, -, -, -, hres⟩ |
      ⟨m, sel, hfind, hpool, hm, hsel, hv, hfa, hmem, hres⟩
    · rw [heq] at hres; simp at hres
    · rw [heq] at hres; simp at hres
    · rw [heq] at hres; simp at hres
    · rw [heq] at hres; simp at hres
    · rw [heq] at hres; simp at hres
    · rw [heq] at hres; simp at hres
    · rw [heq] at hres
      simp only [Prod.mk.injEq, Except.ok.injEq] at hres
      obtain ⟨hdb, hpick⟩ := hres
      have hx : s = ⟨sel.pid, sel.name, sel.email, sel.department,
          sel.selectionCount + 1, t4⟩ := by
        cases hpick
        rfl
      have hy : h = ⟨rid, mid, mn.getD m.name, sel.department, sel.pid, sel.name,
          t1, sid, meth⟩ := by
        cases hpick
        rfl
      subst hx hy
      refine ⟨hfa, ?_, rfl, ?_, ?_, sel, hmem, rfl, rfl⟩
      · rw [hdb]
      · rw [hdb]
      · rw [hdb]
  · intro db' e heq
    rcases selectParticipant_cases db mid dept mn excl meth dur r rid sid t1 t2 t3 t4 failAt with
      ⟨-, hres⟩ | ⟨m, -, -, hres⟩ | ⟨m, -, -, -, hres⟩ | ⟨m, -, -, -, -, hres⟩ |
      ⟨m, sel, -, -, -, -, -, hres⟩ | ⟨m, sel, -, -, -, -, -, -, hres⟩ |
      ⟨m, sel, -, -, -, -, -, -, -, hres⟩
    · rw [heq] at hres
      exact (Prod.mk.injEq .. ▸ hres).1
    · rw [heq] at hres
      simp only [Prod.mk.injEq] at hres
      exact hres.1
    · rw [heq] at hres; simp at hres
    · rw [heq] at hres
      simp only [Prod.mk.injEq] at hres
      exact hres.1
    · rw [heq] at hres
      simp only [Prod.mk.injEq] at hres
      exact hres.1
    · rw [heq] at hres
      simp only [Prod.mk.injEq] at hres
      exact hres.1
    · rw [heq] at hres; simp at hres

/-- C3 amended witness: the success half applied to the concrete `random`
run of `db0` with clock readings 100/101/102/103. -/
theorem selectParticipant_atomic_amended_witness :
    (none : Option (Fin 3)) = none ∧
    db0afterArand.records = db0.records ++
      [⟨10, 1, 1, "A", "Eng", "random", none, 7, 100⟩] ∧
    (⟨10, 1, "Standup", "Eng", 1, "A", 100, 7, "random"⟩ :
      HistoryRecordView).selectedAt = 100 ∧
    db0afterArand.participants = db0.participants.map (bumpParticipant 1 101) ∧
    db0afterArand.meetings = db0.meetings.map (bumpMeeting 1 102) ∧
    ∃ p ∈ db0.participants, p.pid = 1 ∧
      (⟨1, "A", some "a@x", "Eng", 1, 103⟩ : ChosenView).selectionCount =
        p.selectionCount + 1 :=
  (selectParticipant_atomic_amended db0 1 "Eng" none true "random" none 0 10 7
      100 101 102 103 none).1
    db0afterArand ⟨1, "A", some "a@x", "Eng", 1, 103⟩
    ⟨10, 1, "Standup", "Eng", 1, "A", 100, 7, "random"⟩
    (by simp [selectParticipant, poolQuery, eligibleSet, chosenOf, validSelectionMethod,
      applyRecencyFilter, sortByLastSelected, sortKey, pickRandom, bumpParticipant,
      bumpMeeting, db0, db0afterArand, meeting0, pA, pB])

/-- C9: a `manual` request on a non-empty pool returns exactly the final
eligible set (mapped to the response shape) and leaves the state
completely untouched: no SelectionRecord is inserted and no participant or
meeting document is modified. -/
theorem manual_method_frame_spec (db : DB) (mid : Nat) (dept : String)
    (mn : Option String) (excl : Bool) (dur : Option Int) (r : ℚ)
    (rid sid : Nat) (t1 t2 t3 t4 : Int) (failAt : Option (Fin 3))
    (meeting : Meeting)
    (hfind : db.meetings.find? (fun m => m.mid = mid) = some meeting)
    (hpool : poolQuery db meeting dept ≠ []) :
    selectParticipant db mid dept mn excl "manual" dur r rid sid t1 t2 t3 t4 failAt =
      (db, .ok (.eligibleParticipants
        ((eligibleSet (poolQuery db meeting dept) excl).map toEligibleView))) := by
  have hlen : ¬ (poolQuery db meeting dept).length = 0 := by
    simpa [List.length_eq_zero] using hpool
  simp [selectParticipant, hfind, hlen]

/-- C9 witness: the concrete manual run on `db0` returns both eligible
participants and the unchanged state. -/
theorem manual_method_frame_spec_witness :
    selectParticipant db0 1 "Eng" none true "manual" none 0 10 7 100 101 102 103 none =
      (db0, .ok (.eligibleParticipants
        ((eligibleSet (poolQuery db0 meeting0 "Eng") true).map toEligibleView))) :=
  manual_method_frame_spec db0 1 "Eng" none true none 0 10 7 100 101 102 103 none
    meeting0 (by decide) (by decide)

/-- C10: with method `random` or `weighted` and a draw `r ∈ [0, 1)`, the
select pipeline always determines a participant on a non-empty pool — the
recency filter keeps a non-empty set non-empty and both picking branches
total — so the internal `Failed to select participant` exit is
unreachable. -/
theorem select_internal_failure_unreachable (db : DB) (mid : Nat) (dept : String)
    (mn : Option String) (excl : Bool) (meth : String) (dur : Option Int)
    (r : ℚ) (rid sid : Nat) (t1 t2 t3 t4 : Int) (failAt : Option (Fin 3))
    (hme : meth = "random" ∨ meth = "weighted") (h0 : 0 ≤ r) (h1 : r < 1) :
    (selectParticipant db mid dept mn excl meth dur r rid sid t1 t2 t3 t4 failAt).2 ≠
      Except.error SelectError.failedToSelect := by
  have hme' : meth = "random" ∨ meth = "weighted" := hme
  clear hme'
  rcases selectParticipant_cases db mid dept mn excl meth dur r rid sid t1 t2 t3 t4 failAt with
    ⟨-, hres⟩ | ⟨m, -, -, hres⟩ | ⟨m, -, -, -, hres⟩ |
    ⟨m, -, hpool, -, hsel, hres⟩ | ⟨m, sel, -, -, -, -, -, hres⟩ |
    ⟨m, sel, -, -, -, -, -, -, hres⟩ | ⟨m, sel, -, -, -, -, -, -, -, hres⟩
  · rw [hres]; simp
  · rw [hres]; simp
  · rw [hres]; simp
  · -- the failed-to-select disjunct is impossible: the chosen option is some
    have hne : eligibleSet (poolQuery db m dept) excl ≠ [] :=
      eligibleSet_ne_nil excl (fun hc => hpool (by rw [hc]; rfl))
    have hsome := @chosenOf_isSome meth
      (eligibleSet (poolQuery db m dept) excl) r hne h0 h1
    rw [hsel] at hsome
    cases hsome
  · rw [hres]; simp
  · rw [hres]; simp
  · rw [hres]; simp

/-- C10 witness: the concrete `random` run on `db0` does not hit the
internal failure branch. -/
theorem select_internal_failure_unreachable_witness :
    (selectParticipant db0 1 "Eng" none true "random" none 0 10 7
      100 101 102 103 none).2 ≠ Except.error SelectError.failedToSelect :=
  select_internal_failure_unreachable db0 1 "Eng" none true "random" none 0 10 7
    100 101 102 103 none (Or.inl rfl) (by norm_num) (by norm_num)

/-- C4 counterexample: starting from a consistent state (meeting 1 has
`totalSpins = 1` and one matching record), clearing history scoped by
department only deletes the record but never resets the meeting's
statistics, so the invariant
`totalSpins == count(SelectionRecord where meetingId == m)` breaks. -/
theorem clear_by_department_breaks_invariant_cex :
    totalSpinsConsistent db4 ∧
    ¬ totalSpinsConsistent (clearSelectionHistory db4 (some "Eng") none).1 := by
  decide

/-! ### totalSpins-invariant lemmas -/

theorem bumpMeeting_mid (mid : Nat) (t : Int) (m : Meeting) :
    (bumpMeeting mid t m).mid = m.mid := by
  unfold bumpMeeting
  split <;> rfl

theorem resetMeetingStats_mid (mid : Nat) (m : Meeting) :
    (resetMeetingStats mid m).mid = m.mid := by
  unfold resetMeetingStats
  split <;> rfl

/-- Appending one record for meeting `mid` while bumping every meeting
document carrying `mid` preserves the spins/record-count agreement. -/
theorem spins_after_bump_append (meetings : List Meeting)
    (records : List SelectionRecord) (mid : Nat) (t : Int)
    (rec : SelectionRecord) (hrec : rec.meetingId = mid)
    (h : ∀ m ∈ meetings, m.statistics.totalSpins =
      (records.filter (fun q => q.meetingId = m.mid)).length) :
    ∀ m ∈ meetings.map (bumpMeeting mid t),
      m.statistics.totalSpins =
        ((records ++ [rec]).filter (fun q => q.meetingId = m.mid)).length := by
  intro m hm
  obtain ⟨m0, hm0, rfl⟩ := List.mem_map.mp hm
  rw [bumpMeeting_mid, List.filter_append]
  by_cases hmid : m0.mid = mid
  · have hr : rec.meetingId = m0.mid := by rw [hrec, hmid]
    simp [bumpMeeting, hmid, hr, h m0 hm0]
  · have hr : ¬ rec.meetingId = m0.mid := by
      rw [hrec]
      exact fun hc => hmid hc.symm
    simp [bumpMeeting, hmid, hr, h m0 hm0]

/-- Appending one record whose meeting id matches no meeting document
preserves the agreement. -/
theorem spins_after_plain_append (meetings : List Meeting)
    (records : List SelectionRecord) (rec : SelectionRecord)
    (hnone : ∀ m ∈ meetings, ¬ (m.mid = rec.meetingId))
    (h : ∀ m ∈ meetings, m.statistics.totalSpins =
      (records.filter (fun q => q.meetingId = m.mid)).length) :
    ∀ m ∈ meetings,
      m.statistics.totalSpins =
        ((records ++ [rec]).filter (fun q => q.meetingId = m.mid)).length := by
  intro m hm
  rw [List.filter_append]
  have hr : ¬ rec.meetingId = m.mid := fun hc => hnone m hm hc.symm
  simp [hr, h m hm]

/-- Deleting every record of meeting `mid` while zeroing that meeting's
statistics preserves the agreement for all meetings. -/
theorem spins_after_clear_meeting (meetings : List Meeting)
    (records : List SelectionRecord) (mid : Nat)
    (h : ∀ m ∈ meetings, m.statistics.totalSpins =
      (records.filter (fun q => q.meetingId = m.mid)).length) :
    ∀ m ∈ meetings.map (resetMeetingStats mid),
      m.statistics.totalSpins =
        ((records.filter (fun q => !recordMatchesScope none (some mid) q)).filter
          (fun q => q.meetingId = m.mid)).length := by
  intro m hm
  obtain ⟨m0, hm0, rfl⟩ := List.mem_map.mp hm
  rw [resetMeetingStats_mid, List.filter_filter]
  by_cases hmid : m0.mid = mid
  · have hnil : records.filter
        (fun q => q.meetingId = mid && !recordMatchesScope none (some mid) q) = [] := by
      rw [List.filter_eq_nil_iff]
      intro q hq
      by_cases hq2 : q.meetingId = mid <;> simp [recordMatchesScope, hq2]
    simp [resetMeetingStats, hmid, hnil]
  · have hcongr : records.filter
        (fun q => q.meetingId = m0.mid && !recordMatchesScope none (some mid) q) =
        records.filter (fun q => q.meetingId = m0.mid) := by
      apply List.filter_congr
      intro q hq
      by_cases hq2 : q.meetingId = m0.mid
      · have hq3 : ¬ q.meetingId = mid := by
          rw [hq2]
          exact hmid
        simp [recordMatchesScope, hq2, hq3]
        exact hmid
      · simp [hq2]
    simp [resetMeetingStats, hmid, hcongr, h m0 hm0]

/-- Characterization of a successful `createSelectionRecord`. -/
theorem createSelectionRecord_ok {db : DB} {mid : Nat} {mn : Option String}
    {dep : Option String} {pid : Nat} {pname : String} {dur : Option Int}
    {meth : String} {sid : Option Nat} {rid fsid : Nat} {t1 t2 t3 : Int}
    {failAt : Option (Fin 3)} {db' : DB} {rec : SelectionRecord}
    (heq : createSelectionRecord db mid mn dep pid pname dur meth sid rid fsid
      t1 t2 t3 failAt = (db', .ok rec)) :
    rec.meetingId = mid ∧
    db'.records = db.records ++ [rec] ∧
    db'.participants = db.participants.map (bumpParticipant pid t2) ∧
    (((db.meetings.find? (fun m => m.mid = mid)).isSome ∧
        db'.meetings = db.meetings.map (bumpMeeting mid t3)) ∨
      (db.meetings.find? (fun m => m.mid = mid) = none ∧
        db'.meetings = db.meetings)) := by
  simp only [createSelectionRecord] at heq
  split at heq
  · simp at heq
  · split at heq
    · simp at heq
    · next participant hfindp =>
      split at heq
      · simp at heq
      · split at heq
        · simp at heq
        · simp only [Prod.mk.injEq, Except.ok.injEq] at heq
          obtain ⟨hdb, hrec⟩ := heq
          subst hrec
          refine ⟨rfl, ?_, ?_, ?_⟩
          · rw [← hdb]
          · rw [← hdb]
          · cases hfm : db.meetings.find? (fun m => m.mid = mid) with
            | none =>
              right
              refine ⟨rfl, ?_⟩
              rw [← hdb]
              simp [hfm]
            | some mm =>
              left
              refine ⟨by simp [hfm], ?_⟩
              rw [← hdb]
              simp [hfm]

/-- C4 amended: the invariant
`meeting.statistics.totalSpins == count(SelectionRecord where meetingId == m)`
is preserved by every successful select and record-creation, and by
clear-history scoped to exactly one meeting with no department filter; it
is NOT preserved by department-only, global or meeting+department clears
(see the counterexample). -/
theorem totalSpins_invariant_amended (db : DB) (hinv : totalSpinsConsistent db) :
    (∀ (mid : Nat) (dept : String) (mn : Option String) (excl : Bool)
       (meth : String) (dur : Option Int) (r : ℚ) (rid sid : Nat)
       (t1 t2 t3 t4 : Int) (failAt : Option (Fin 3)) (db' : DB)
       (res : SelectResult),
      selectParticipant db mid dept mn excl meth dur r rid sid t1 t2 t3 t4 failAt =
        (db', .ok res) → totalSpinsConsistent db') ∧
    (∀ (mid : Nat) (mn : Option String) (dep : Option String) (pid : Nat)
       (pname : String) (dur : Option Int) (meth : String) (sid : Option Nat)
       (rid fsid : Nat) (t1 t2 t3 : Int) (failAt : Option (Fin 3)) (db' : DB)
       (rec : SelectionRecord),
      createSelectionRecord db mid mn dep pid pname dur meth sid rid fsid
        t1 t2 t3 failAt = (db', .ok rec) → totalSpinsConsistent db') ∧
    (∀ mid : Nat,
      totalSpinsConsistent (clearSelectionHistory db none (some mid)).1) := by
  refine ⟨?_, ?_, ?_⟩
  · intro mid dept mn excl meth dur r rid sid t1 t2 t3 t4 failAt db' res heq
    rcases selectParticipant_cases db mid dept mn excl meth dur r rid sid t1 t2 t3 t4 failAt with
      ⟨-, hres⟩ | ⟨m, -, -, hres⟩ | ⟨m, -, -, -, hres⟩ | ⟨m, -, -, -, -, hres⟩ |
      ⟨m, sel, -, -, -, -, -, hres⟩ | ⟨m, sel, -, -, -, -, -, -, hres⟩ |
      ⟨m, sel, -, -, -, -, -, -, -, hres⟩
    · rw [heq] at hres; simp at hres
    · rw [heq] at hres; simp at hres
    · rw [heq] at hres
      simp only [Prod.mk.injEq] at hres
      rw [hres.1]
      exact hinv
    · rw [heq] at hres; simp at hres
    · rw [heq] at hres; simp at hres
    · rw [heq] at hres; simp at hres
    · rw [heq] at hres
      simp only [Prod.mk.injEq] at hres
      rw [hres.1]
      intro m1 hm1
      exact spins_after_bump_append db.meetings db.records mid t3 _ rfl hinv m1 hm1
  · intro mid mn dep pid pname dur meth sid rid fsid t1 t2 t3 failAt db' rec heq
    obtain ⟨hmid, hrecs, -, hms⟩ := createSelectionRecord_ok heq
    rcases hms with ⟨-, hms⟩ | ⟨hnone, hms⟩
    · intro m1 hm1
      rw [hms] at hm1
      rw [hrecs]
      exact spins_after_bump_append db.meetings db.records mid t3 rec hmid hinv m1 hm1
    · intro m1 hm1
      rw [hms] at hm1
      rw [hrecs]
      have hno : ∀ m ∈ db.meetings, ¬ (m.mid = rec.meetingId) := by
        intro m hm hc
        have := List.find?_eq_none.mp hnone m hm
        rw [hmid] at hc
        simp [hc] at this
      exact spins_after_plain_append db.meetings db.records rec hno hinv m1 hm1
  · intro mid m1 hm1
    simp only [clearSelectionHistory] at hm1 ⊢
    exact spins_after_clear_meeting db.meetings db.records mid hinv m1 hm1

/-- C4 amended witness: clearing `db4` (a consistent state) scoped to
meeting 1 keeps the invariant. -/
theorem totalSpins_invariant_amended_witness :
    totalSpinsConsistent (clearSelectionHistory db4 none (some 1)).1 :=
  (totalSpins_invariant_amended db4 (by decide)).2.2 1

/-- C7 counterexample: the response of `clearSelectionHistory` does not
carry any `clearedCount` — it is a fixed message plus a scope echo,
identical whether the call deleted one record or two. -/
theorem clear_response_independent_of_deleted_count_cex :
    (clearSelectionHistory db4 (some "Eng") none).2 =
      (clearSelectionHistory db7b (some "Eng") none).2 ∧
    db4.records.length - (clearSelectionHistory db4 (some "Eng") none).1.records.length = 1 ∧
    db7b.records.length - (clearSelectionHistory db7b (some "Eng") none).1.records.length = 2 := by
  decide

/-! ### clear-history lemmas -/

theorem filter_self_idem {α : Type} (p : α → Bool) (l : List α) :
    (l.filter p).filter p = l.filter p := by
  rw [List.filter_filter]
  apply List.filter_congr
  intro a ha
  rw [Bool.and_self]

theorem participantReset_idem (dept? : Option String) (mid? : Option Nat)
    (p : Participant) :
    (fun q => if participantMatchesScope dept? mid? q then
        { q with selectionCount := 0, lastSelected := none } else q)
      ((fun q => if participantMatchesScope dept? mid? q then
        { q with selectionCount := 0, lastSelected := none } else q) p) =
    (fun q => if participantMatchesScope dept? mid? q then
        { q with selectionCount := 0, lastSelected := none } else q) p := by
  by_cases h : participantMatchesScope dept? mid? p
  · have h2 : participantMatchesScope dept? mid?
        ({ p with selectionCount := 0, lastSelected := none } : Participant) = true := by
      simpa [participantMatchesScope] using h
    simp [h, h2]
  · simp [h]

theorem resetMeetingStats_idem (mid : Nat) (m : Meeting) :
    resetMeetingStats mid (resetMeetingStats mid m) = resetMeetingStats mid m := by
  unfold resetMeetingStats
  by_cases h : m.mid = mid <;> simp [h]

/-- C7 amended: `clearSelectionHistory` is idempotent in effect — a second
call with the same scope changes neither the state nor the response, after
the first call every matched participant shows `selectionCount = 0` and
`lastSelected` unset and no record matching the scope remains — but the
response carries no `clearedCount`: it is the fixed success message plus
an echo of the requested scope. -/
theorem clearSelectionHistory_idempotent_amended (db : DB)
    (dept? : Option String) (mid? : Option Nat) :
    (clearSelectionHistory (clearSelectionHistory db dept? mid?).1 dept? mid?).1 =
      (clearSelectionHistory db dept? mid?).1 ∧
    (clearSelectionHistory (clearSelectionHistory db dept? mid?).1 dept? mid?).2 =
      (clearSelectionHistory db dept? mid?).2 ∧
    (∀ p ∈ (clearSelectionHistory db dept? mid?).1.participants,
      participantMatchesScope dept? mid? p →
        p.selectionCount = 0 ∧ p.lastSelected = none) ∧
    (∀ rec ∈ (clearSelectionHistory db dept? mid?).1.records,
      ¬ recordMatchesScope dept? mid? rec) ∧
    (clearSelectionHistory db dept? mid?).2 =
      ⟨"Selection history cleared successfully", dept?.getD "all",
        (mid?.map toString).getD "all"⟩ := by
  refine ⟨?_, rfl, ?_, ?_, rfl⟩
  · simp only [clearSelectionHistory, DB.mk.injEq]
    refine ⟨?_, ?_, ?_, ?_⟩
    · cases mid? with
      | none => rfl
      | some m =>
        simp only [List.map_map]
        apply List.map_congr_left
        intro a ha
        exact resetMeetingStats_idem m a
    · rw [List.map_map]
      apply List.map_congr_left
      intro a ha
      exact participantReset_idem dept? mid? a
    · exact filter_self_idem _ _
    · exact filter_self_idem _ _
  · intro p hp hmatch
    simp only [clearSelectionHistory] at hp
    obtain ⟨p0, hp0, hpeq⟩ := List.mem_map.mp hp
    by_cases h : participantMatchesScope dept? mid? p0
    · rw [if_pos h] at hpeq
      rw [← hpeq]
      exact ⟨rfl, rfl⟩
    · rw [if_neg h] at hpeq
      rw [← hpeq] at hmatch
      exact absurd hmatch h
  · intro rec hrec
    simp only [clearSelectionHistory] at hrec
    have := List.of_mem_filter hrec
    simpa using this

/-- C7 amended witness: state idempotence of the concrete
department-scoped clear on `db4`. -/
theorem clearSelectionHistory_idempotent_amended_witness :
    (clearSelectionHistory (clearSelectionHistory db4 (some "Eng") none).1
        (some "Eng") none).1 =
      (clearSelectionHistory db4 (some "Eng") none).1 :=
  (clearSelectionHistory_idempotent_amended db4 (some "Eng") none).1

/-- C1 counterexample: with participants A (`selectionCount = 0`) and B
(`selectionCount = 2`, two records), the fairness aggregation groups the
records only, so A is invisible: `totalParticipants = 1`,
`fairnessScore = 100`, not the claimed 50. -/
theorem fairness_counts_only_selected_participants_cex :
    pA.selectionCount = 0 ∧ pB.selectionCount = 2 ∧
    (recB 1 0).participantId = pB.pid ∧ (recB 2 5).participantId = pB.pid ∧
    getSelectionFairness [recB 1 0, recB 2 5] none =
      ⟨100, 1, 1, [⟨2, "B", 2⟩]⟩ ∧
    (100 : Int) ≠ 50 := by
  refine ⟨by decide, by decide, by decide, by decide, ?_, by decide⟩
  simp [getSelectionFairness, scopeRecords, distinctParticipantIds, jsRound, recB, pB]
  norm_num

/-! ### Fairness-aggregation lemmas -/

theorem mem_foldl_distinct (recs : List SelectionRecord) (acc : List Nat) (x : Nat) :
    x ∈ recs.foldl (fun a rec =>
        if rec.participantId ∈ a then a else a ++ [rec.participantId]) acc ↔
      x ∈ acc ∨ ∃ rec ∈ recs, rec.participantId = x := by
  induction recs generalizing acc with
  | nil => simp
  | cons rec recs ih =>
    simp only [List.foldl_cons]
    by_cases hc : rec.participantId ∈ acc
    · rw [if_pos hc, ih]
      constructor
      · rintro (hx | ⟨q, hq, hqx⟩)
        · exact Or.inl hx
        · exact Or.inr ⟨q, List.mem_cons_of_mem rec hq, hqx⟩
      · rintro (hx | ⟨q, hq, hqx⟩)
        · exact Or.inl hx
        · rcases List.mem_cons.mp hq with rfl | hq'
          · exact Or.inl (hqx ▸ hc)
          · exact Or.inr ⟨q, hq', hqx⟩
    · rw [if_neg hc, ih]
      constructor
      · rintro (hx | ⟨q, hq, hqx⟩)
        · rcases List.mem_append.mp hx with hx' | hx'
          · exact Or.inl hx'
          · exact Or.inr ⟨rec, List.mem_cons_self rec recs,
              (List.mem_singleton.mp hx').symm⟩
        · exact Or.inr ⟨q, List.mem_cons_of_mem rec hq, hqx⟩
      · rintro (hx | ⟨q, hq, hqx⟩)
        · exact Or.inl (List.mem_append.mpr (Or.inl hx))
        · rcases List.mem_cons.mp hq with rfl | hq'
          · exact Or.inl (List.mem_append.mpr
              (Or.inr (List.mem_singleton.mpr hqx.symm)))
          · exact Or.inr ⟨q, hq', hqx⟩

theorem mem_distinctParticipantIds {recs : List SelectionRecord} {x : Nat} :
    x ∈ distinctParticipantIds recs ↔ ∃ rec ∈ recs, rec.participantId = x := by
  rw [distinctParticipantIds, mem_foldl_distinct]
  simp

theorem nodup_foldl_distinct (recs : List SelectionRecord) (acc : List Nat)
    (h : acc.Nodup) :
    (recs.foldl (fun a rec =>
      if rec.participantId ∈ a then a else a ++ [rec.participantId]) acc).Nodup := by
  induction recs generalizing acc with
  | nil => exact h
  | cons rec recs ih =>
    simp only [List.foldl_cons]
    by_cases hc : rec.participantId ∈ acc
    · rw [if_pos hc]
      exact ih acc h
    · rw [if_neg hc]
      apply ih
      rw [← List.concat_eq_append]
      exact List.Nodup.concat hc h

theorem nodup_distinctParticipantIds (recs : List SelectionRecord) :
    (distinctParticipantIds recs).Nodup :=
  nodup_foldl_distinct recs [] List.nodup_nil

theorem distinctParticipantIds_eq_nil {recs : List SelectionRecord} :
    distinctParticipantIds recs = [] ↔ recs = [] := by
  constructor
  · intro h
    cases hr : recs with
    | nil => rfl
    | cons rec rest =>
      have : rec.participantId ∈ distinctParticipantIds recs := by
        rw [mem_distinctParticipantIds]
        exact ⟨rec, by rw [hr]; exact List.mem_cons_self rec rest, rfl⟩
      rw [h] at this
      cases this
  · intro h
    rw [h]
    rfl

theorem distinct_perm_dedup (recs : List SelectionRecord) :
    (distinctParticipantIds recs).Perm
      ((recs.map (fun rec => rec.participantId)).dedup) := by
  apply (List.perm_ext_iff_of_nodup (nodup_distinctParticipantIds recs)
    (List.nodup_dedup _)).mpr
  intro x
  rw [mem_distinctParticipantIds, List.mem_dedup, List.mem_map]

theorem countP_dedup_pid (recs : List SelectionRecord) (p : Nat → Bool) :
    ((recs.map (fun rec => rec.participantId)).dedup).countP p =
      ((distinctParticipantIds recs).filter p).length := by
  rw [List.countP_eq_length_filter]
  exact (((distinct_perm_dedup recs).filter p).length_eq).symm

/-- C1 amended: the fairness aggregation sees only participants with at
least one SelectionRecord in scope, so `participantsSelected` always
equals `totalParticipants`: whenever any record matches the scope the
score is `round(100 · n/n) = 100` (with one distribution row per distinct
recorded participant), and on an empty scope the query returns the
zero-valued structure `{0, 0, 0, []}` without raising; participants with
`selectionCount = 0` cannot influence the score. -/
theorem getSelectionFairness_amended (recs : List SelectionRecord)
    (mid? : Option Nat) :
    (scopeRecords recs mid? = [] →
      getSelectionFairness recs mid? = ⟨0, 0, 0, []⟩) ∧
    (scopeRecords recs mid? ≠ [] →
      (getSelectionFairness recs mid?).fairnessScore = 100 ∧
      (getSelectionFairness recs mid?).participantsSelectedAtLeastOnce =
        (getSelectionFairness recs mid?).totalParticipants ∧
      0 < (getSelectionFairness recs mid?).totalParticipants ∧
      (getSelectionFairness recs mid?).selectionDistribution.length =
        (getSelectionFairness recs mid?).totalParticipants) := by
  constructor
  · intro hempty
    have hpids : distinctParticipantIds (scopeRecords recs mid?) = [] :=
      distinctParticipantIds_eq_nil.mpr hempty
    simp [getSelectionFairness, hpids]
  · intro hne
    have hpids : distinctParticipantIds (scopeRecords recs mid?) ≠ [] :=
      fun hc => hne (distinctParticipantIds_eq_nil.mp hc)
    have hlen : ¬ (distinctParticipantIds (scopeRecords recs mid?)).length = 0 :=
      fun hc => hpids (List.length_eq_zero.mp hc)
    have hfilt : (distinctParticipantIds (scopeRecords recs mid?)).filter
        (fun pid => 0 < (scopeRecords recs mid?).countP
          (fun q => q.participantId = pid)) =
        distinctParticipantIds (scopeRecords recs mid?) := by
      apply List.filter_eq_self.mpr
      intro pid hpid
      obtain ⟨rec, hrec, hrpid⟩ := mem_distinctParticipantIds.mp hpid
      have hpos : 0 < (scopeRecords recs mid?).countP
          (fun q => q.participantId = pid) :=
        List.countP_pos_iff.mpr ⟨rec, hrec, by simp [hrpid]⟩
      simpa using hpos
    have hq : ((distinctParticipantIds (scopeRecords recs mid?)).length : ℚ) ≠ 0 :=
      Nat.cast_ne_zero.mpr hlen
    refine ⟨?_, ?_, ?_, ?_⟩ <;>
      simp only [getSelectionFairness, if_neg hlen, hfilt]
    · rw [div_self hq]
      norm_num [jsRound]
    · exact Nat.pos_of_ne_zero hlen
    · exact List.length_map _ _

/-- C1 amended witness: two records of one participant in scope give the
100 score with a single distribution row. -/
theorem getSelectionFairness_amended_witness :
    scopeRecords [recB 1 0, recB 2 5] none ≠ [] ∧
    ((getSelectionFairness [recB 1 0, recB 2 5] none).fairnessScore = 100 ∧
      (getSelectionFairness [recB 1 0, recB 2 5] none).participantsSelectedAtLeastOnce =
        (getSelectionFairness [recB 1 0, recB 2 5] none).totalParticipants ∧
      0 < (getSelectionFairness [recB 1 0, recB 2 5] none).totalParticipants ∧
      (getSelectionFairness [recB 1 0, recB 2 5] none).selectionDistribution.length =
        (getSelectionFairness [recB 1 0, recB 2 5] none).totalParticipants) :=
  ⟨by decide, (getSelectionFairness_amended [recB 1 0, recB 2 5] none).2 (by decide)⟩

/-- C8 amended: the engagement score combines the participation rate
(participants with `lastSelected` in the trailing 30 days ÷ ALL
participants), the repeat-usage rate (distinct participants with more than
one record in the 30-day window ÷ participants with `lastSelected` in the
window) and the average selection duration over ALL duration-carrying
records (no 30-day window), normalized by capping at 60 s → 1.0, weighted
4:3:3 on a 10-point scale, clamped at 10 and rounded to one decimal —
proved by equivalence with an independently-stated formulation. -/
theorem getEngagementScore_amended (db : DB) (now : Int) :
    getEngagementScore db now = engagementAmendedSpec db now := by
  have hdur := filterMap_duration_eq db.records
  have hcnt : db.participants.countP
      (fun p => match p.lastSelected with
        | some t => decide (now - thirtyDaysMs ≤ t)
        | none => false) =
      (db.participants.filter
        (fun p => match p.lastSelected with
          | some t => decide (now - thirtyDaysMs ≤ t)
          | none => false)).length := List.countP_eq_length_filter _ _
  have hru := countP_dedup_pid
    (db.records.filter (fun rec => decide (now - thirtyDaysMs ≤ rec.selectedAt)))
    (fun pid => decide (1 < (db.records.filter
      (fun rec => decide (now - thirtyDaysMs ≤ rec.selectedAt))).countP
        (fun rec => decide (rec.participantId = pid))))
  simp only [getEngagementScore, engagementAmendedSpec, hdur, hcnt, hru]
  have h100 : ∀ x : ℚ, x * 100 / 100 = x := fun x => by norm_num
  simp only [List.isEmpty_iff, List.length_pos, List.length_eq_zero,
    List.map_eq_nil_iff]
  by_cases h1 : db.participants = [] <;>
    by_cases h2 : db.participants.filter
      (fun p => match p.lastSelected with
        | some t => decide (now - thirtyDaysMs ≤ t)
        | none => false) = [] <;>
      by_cases h3 : db.records.filter (fun rec => rec.selectionDuration.isSome) = [] <;>
        simp only [h1, h2, h3, List.filter_nil, List.map_nil, List.length_nil,
          List.sum_nil, Nat.cast_zero, zero_div, zero_mul, mul_zero, ne_eq,
          not_true, not_false_iff, ite_true, ite_false, if_true, if_false, h100,
          Int.cast_zero] <;>
        norm_num [jsRound]

/-- C8 counterexample: the average-selection-duration ingredient is NOT
computed over the trailing 30-day window.  With a single duration-carrying
record far older than the window, the source's score is 3.0 (the duration
term contributes fully) while the score computed with all three
ingredients windowed — as the claim states — is 0. -/
theorem engagement_duration_ignores_window_cex :
    (getEngagementScore db8 4000000000).overallScore = 3 ∧
    engagementScorePerClaim db8 4000000000 = 0 ∧
    (3 : ℚ) ≠ 0 := by
  refine ⟨?_, ?_, by norm_num⟩ <;>
    simp [getEngagementScore, engagementScorePerClaim, db8, thirtyDaysMs, jsRound,
      distinctParticipantIds] <;> norm_num

end NameSpinner
